import Mathlib

/-!
Verification of the Pig dice game core (decision policy, score ledger,
player entity, match state machine) against its natural-language
specification.  Each Python class is shallowly embedded as Lean
definitions: pure methods become Lean functions, methods that raise
become `Except`-valued functions, the interactive game loop becomes a
step function on an explicit match state, and Python `int` becomes `ℤ`.
-/

/-! ## Decision policy (src/temp_intelligence.py, class Intelligence) -/

structure Intelligence where
  hold_threshold : ℤ
  difficulty : String

namespace Intelligence

/-- Embeds `Intelligence._decide_hard`.  The Python float constants are
modelled as rationals: `p_lose = 1/6`, `p_continue = 5/6`, and the
literal `3.5` is `7/2`. -/
def decide_hard (ai : Intelligence) (turn_total my_score opponent_score : ℤ) : String :=
  let score_gap := my_score - opponent_score
  let base1 :=
    if score_gap < 0 then ai.hold_threshold + 3
    else if score_gap > 15 then ai.hold_threshold - 3
    else ai.hold_threshold
  let base_threshold := if opponent_score ≥ 90 then base1 - 2 else base1
  let p_lose : ℚ := 1 / 6
  let p_continue : ℚ := 5 / 6
  let expected_gain : ℚ := p_continue * (7 / 2)
  let expected_next_score : ℚ := (my_score : ℚ) + (turn_total : ℚ) + expected_gain
  if expected_next_score ≥ 100 then
    if p_continue * expected_gain > p_lose * (turn_total : ℚ) then "roll" else "hold"
  else if turn_total ≥ base_threshold then "hold"
  else
    let risk_factor : ℚ := p_lose * (turn_total : ℚ)
    if risk_factor < 5 then "roll" else "hold"

/-- Embeds `Intelligence.decide`: immediate-win check first (the winning
total is the literal `100` in the source), then the easy and medium
branches, falling through to the hard strategy. -/
def decide (ai : Intelligence) (turn_total my_score opponent_score : ℤ) : String :=
  if my_score + turn_total ≥ 100 then "hold"
  else if ai.difficulty = "easy" then
    if turn_total ≥ ai.hold_threshold then "hold" else "roll"
  else if ai.difficulty = "medium" then
    if turn_total ≥ ai.hold_threshold then "hold"
    else if opponent_score > 85 then
      if turn_total ≥ 18 then "hold" else "roll"
    else "roll"
  else decide_hard ai turn_total my_score opponent_score

end Intelligence

/-- C1: for every difficulty level (any `Intelligence` state) and every
input whose own score plus turn total equals the winning score (the
policy's winning score is the constant 100), `decide` returns "hold"
(BANK): the immediate-win rule is checked first and dominates every
difficulty-specific threshold. -/
theorem decide_banks_exact_win (ai : Intelligence) (turn_total my_score opponent_score : ℤ)
    (h : my_score + turn_total = 100) :
    Intelligence.decide ai turn_total my_score opponent_score = "hold" := by
  unfold Intelligence.decide
  rw [if_pos (by omega)]

theorem decide_banks_exact_win_witness :
    Intelligence.decide ⟨20, "easy"⟩ 40 60 0 = "hold" :=
  decide_banks_exact_win ⟨20, "easy"⟩ 40 60 0 (by norm_num)

lemma decide_medium_eq (turn_total my_score opponent_score : ℤ)
    (h : my_score + turn_total < 100) :
    Intelligence.decide ⟨20, "medium"⟩ turn_total my_score opponent_score =
      if 20 ≤ turn_total then "hold"
      else if 85 < opponent_score then
        (if 18 ≤ turn_total then "hold" else "roll")
      else "roll" := by
  unfold Intelligence.decide
  rw [if_neg (by omega), if_neg (by decide), if_pos rfl]

/-- C9: under the medium difficulty state (threshold 20, as both the
constructor default and `set_difficulty("medium")` produce), for every
input not covered by the immediate-win rule, `decide` returns BANK when
the turn total is at least 20; otherwise, when the opponent score
exceeds 85 it returns BANK exactly when the turn total is at least 18,
and in all remaining cases it returns ROLL. -/
theorem decide_medium_policy (turn_total my_score opponent_score : ℤ)
    (h : my_score + turn_total < 100) :
    (20 ≤ turn_total →
      Intelligence.decide ⟨20, "medium"⟩ turn_total my_score opponent_score = "hold") ∧
    (turn_total < 20 → 85 < opponent_score →
      (Intelligence.decide ⟨20, "medium"⟩ turn_total my_score opponent_score = "hold" ↔
        18 ≤ turn_total)) ∧
    (turn_total < 20 → ¬(85 < opponent_score ∧ 18 ≤ turn_total) →
      Intelligence.decide ⟨20, "medium"⟩ turn_total my_score opponent_score = "roll") := by
  rw [decide_medium_eq turn_total my_score opponent_score h]
  refine ⟨fun h20 => by rw [if_pos h20], ?_, ?_⟩
  · intro h20 h85
    rw [if_neg (by omega), if_pos h85]
    constructor
    · intro heq
      by_contra h18
      rw [if_neg h18] at heq
      exact absurd heq (by simp)
    · intro h18; rw [if_pos h18]
  · intro h20 hrest
    rw [if_neg (by omega)]
    by_cases h85 : 85 < opponent_score
    · rw [if_pos h85, if_neg (by tauto)]
    · rw [if_neg h85]

theorem decide_medium_policy_witness :
    Intelligence.decide ⟨20, "medium"⟩ 19 0 90 = "hold" := by
  have := (decide_medium_policy 19 0 90 (by norm_num)).2.1 (by norm_num) (by norm_num)
  exact this.2 (by norm_num)

/-! ## Player entity (src/player.py, class Player) -/

structure Player where
  name : String
  is_ai : Bool
  total_score : ℤ

namespace Player

/-- Embeds `Player.__init__`: a non-empty (after stripping) name is
required, the score starts at 0.  Python's `name.strip() == ""` holds
exactly when every character of the name is whitespace, which is how
the check is rendered here; `isinstance(name, str)` is subsumed by the
Lean type. -/
def init (name : String) (is_ai : Bool) : Except String Player :=
  if name.toList.all Char.isWhitespace then
    Except.error "Name must be a non-empty string."
  else Except.ok ⟨name, is_ai, 0⟩

/-- Embeds `Player.set_score`: rejects a negative score. -/
def set_score (p : Player) (score : ℤ) : Except String Player :=
  if score < 0 then Except.error "Score must be a non-negative integer."
  else Except.ok { p with total_score := score }

/-- Embeds `Player.add_score`: rejects negative points; the mutation
happens only after the check, so a raising call leaves the object
untouched. -/
def add_score (p : Player) (points : ℤ) : Except String Player :=
  if points < 0 then Except.error "Points must be a non-negative integer."
  else Except.ok { p with total_score := p.total_score + points }

/-- Embeds `Player.reset_score`. -/
def reset_score (p : Player) : Player :=
  { p with total_score := 0 }

end Player

/-- Python exception semantics for a method that mutates `self` only on
success: on an error the object is left exactly as it was. -/
def runExc (p : Player) (r : Except String Player) : Player :=
  match r with
  | Except.ok q => q
  | Except.error _ => p

/-- The score-mutating operations of `Player`. -/
inductive PlayerOp where
  | setScoreOp (score : ℤ)
  | addScoreOp (points : ℤ)
  | resetOp

def applyOp (p : Player) : PlayerOp → Player
  | PlayerOp.setScoreOp n => runExc p (p.set_score n)
  | PlayerOp.addScoreOp n => runExc p (p.add_score n)
  | PlayerOp.resetOp => p.reset_score

def applyOps (p : Player) (ops : List PlayerOp) : Player :=
  ops.foldl applyOp p

lemma applyOp_nonneg (p : Player) (o : PlayerOp) (h : 0 ≤ p.total_score) :
    0 ≤ (applyOp p o).total_score := by
  cases o with
  | setScoreOp n =>
    simp only [applyOp, Player.set_score]
    split
    · simpa [runExc] using h
    · simp only [runExc]; omega
  | addScoreOp n =>
    simp only [applyOp, Player.add_score]
    split
    · simpa [runExc] using h
    · simp only [runExc]; omega
  | resetOp => simp [applyOp, Player.reset_score]

lemma applyOps_nonneg (ops : List PlayerOp) (p : Player) (h : 0 ≤ p.total_score) :
    0 ≤ (applyOps p ops).total_score := by
  induction ops generalizing p with
  | nil => simpa [applyOps] using h
  | cons o rest ih =>
    simpa [applyOps] using ih (applyOp p o) (applyOp_nonneg p o h)

/-- C3: starting from a freshly constructed player, every sequence of
score operations keeps `total_score` non-negative; and `add_score` with
a negative argument fails with a `ValueError` and leaves the player
(its score in particular) exactly unchanged. -/
theorem player_score_nonneg_and_add_rejects (name : String) (ai : Bool) (p0 : Player)
    (hp : Player.init name ai = Except.ok p0) :
    (∀ ops : List PlayerOp, 0 ≤ (applyOps p0 ops).total_score) ∧
    (∀ (q : Player) (points : ℤ), points < 0 →
      q.add_score points = Except.error "Points must be a non-negative integer." ∧
      runExc q (q.add_score points) = q) := by
  constructor
  · intro ops
    apply applyOps_nonneg
    unfold Player.init at hp
    split at hp
    · exact absurd hp (by simp)
    · cases hp; simp
  · intro q points hneg
    have herr : q.add_score points = Except.error "Points must be a non-negative integer." := by
      unfold Player.add_score
      rw [if_pos hneg]
    exact ⟨herr, by rw [herr]; rfl⟩

theorem player_score_nonneg_and_add_rejects_witness :
    0 ≤ (applyOps ⟨"Lulu", false, 0⟩ [PlayerOp.addScoreOp 7, PlayerOp.resetOp]).total_score ∧
    runExc ⟨"Lulu", false, 0⟩ (Player.add_score ⟨"Lulu", false, 0⟩ (-3)) = ⟨"Lulu", false, 0⟩ := by
  have h := player_score_nonneg_and_add_rejects "Lulu" false ⟨"Lulu", false, 0⟩
    (by unfold Player.init; rw [if_neg (by decide)])
  exact ⟨h.1 [PlayerOp.addScoreOp 7, PlayerOp.resetOp],
    (h.2 ⟨"Lulu", false, 0⟩ (-3) (by norm_num)).2⟩

/-! ## Score ledger (src/score.py, class Score)

The Python `self.scores` dict is embedded as an insertion-ordered
association list with unique keys, matching Python dict semantics: a
new key is appended at the end, deletion removes the key's entry,
in-place update keeps the entry's position.  File persistence
(`save_scores`) is pure I/O; a rename result carries a flag recording
whether the save was reached. -/

structure GameRecord where
  date : String
  points : ℤ
deriving DecidableEq

structure ScoreEntry where
  games : List GameRecord
  total_points : ℤ
deriving DecidableEq

abbrev Ledger := List (String × ScoreEntry)

namespace Score

/-- Dict membership and indexing: the entry stored under a key. -/
def lookupEntry : Ledger → String → Option ScoreEntry
  | [], _ => none
  | (k, e) :: rest, n => if k = n then some e else lookupEntry rest n

/-- Dict in-place update of the entry under a key (position kept). -/
def updateEntry (n : String) (f : ScoreEntry → ScoreEntry) : Ledger → Ledger
  | [] => []
  | (k, e) :: rest => if k = n then (k, f e) :: rest else (k, e) :: updateEntry n f rest

/-- Dict deletion (`del` / `pop`) of a key. -/
def eraseKey (n : String) : Ledger → Ledger
  | [] => []
  | (k, e) :: rest => if k = n then rest else (k, e) :: eraseKey n rest

/-- Embeds `Score.record_game`: creates an empty entry for a new name
(appended at the dict's end), appends the `{date, points}` record and
adds the points to the running total.  `date.today()` is I/O, so the
date string is passed in. -/
def record_game (s : Ledger) (player_name : String) (today : String) (points : ℤ) : Ledger :=
  let s1 :=
    if (lookupEntry s player_name).isNone then s ++ [(player_name, ⟨[], 0⟩)] else s
  updateEntry player_name
    (fun e => ⟨e.games ++ [⟨today, points⟩], e.total_points + points⟩) s1

/-- Embeds `Score.get_player_history`: the games of the name's entry,
or `[]` when the name is absent (`dict.get` with defaults). -/
def get_player_history (s : Ledger) (name : String) : List GameRecord :=
  match lookupEntry s name with
  | some e => e.games
  | none => []

/-- Result of `Score.rename_player`: the returned boolean, whether
`save_scores` was reached, and the resulting mapping. -/
structure RenameResult where
  ok : Bool
  saved : Bool
  scores : Ledger
deriving DecidableEq

/-- Embeds `Score.rename_player`: failure when `old_name` is absent;
no-op success when the names coincide; otherwise merge into an existing
`new_name` entry (games appended after the existing ones, totals added)
or move the entry to `new_name` (`pop` then insert, so the entry lands
at the dict's end); finally the defensive `if old_name in scores: del`. -/
def rename_player (s : Ledger) (old_name new_name : String) : RenameResult :=
  if (lookupEntry s old_name).isNone then ⟨false, false, s⟩
  else if old_name = new_name then ⟨true, false, s⟩
  else
    let oldE := (lookupEntry s old_name).getD ⟨[], 0⟩
    let s1 :=
      if (lookupEntry s new_name).isSome then
        updateEntry new_name
          (fun e => ⟨e.games ++ oldE.games, e.total_points + oldE.total_points⟩) s
      else
        eraseKey old_name s ++ [(new_name, oldE)]
    let s2 := if (lookupEntry s1 old_name).isSome then eraseKey old_name s1 else s1
    ⟨true, true, s2⟩

/-- Embeds `Score.clear_scores`. -/
def clear_scores : Ledger := []

end Score

namespace Score

lemma lookupEntry_mem {s : Ledger} {n : String} {e : ScoreEntry}
    (h : lookupEntry s n = some e) : (n, e) ∈ s := by
  induction s with
  | nil => simp [lookupEntry] at h
  | cons hd rest ih =>
    obtain ⟨k, e'⟩ := hd
    simp only [lookupEntry] at h
    split at h
    · rename_i heq
      subst heq
      cases h
      exact List.mem_cons_self _ _
    · exact List.mem_cons_of_mem _ (ih h)

lemma lookupEntry_update_self (s : Ledger) (n : String) (f : ScoreEntry → ScoreEntry) :
    lookupEntry (updateEntry n f s) n = (lookupEntry s n).map f := by
  induction s with
  | nil => simp [lookupEntry, updateEntry]
  | cons hd rest ih =>
    obtain ⟨k, e'⟩ := hd
    by_cases hk : k = n
    · subst hk; simp [lookupEntry, updateEntry]
    · simp [lookupEntry, updateEntry, if_neg hk, ih]

lemma lookupEntry_update_ne (s : Ledger) {m n : String} (f : ScoreEntry → ScoreEntry)
    (h : m ≠ n) : lookupEntry (updateEntry n f s) m = lookupEntry s m := by
  induction s with
  | nil => simp [lookupEntry, updateEntry]
  | cons hd rest ih =>
    obtain ⟨k, e'⟩ := hd
    by_cases hk : k = n
    · subst hk
      simp only [updateEntry, if_pos rfl, lookupEntry]
      rw [if_neg (fun hc => h hc.symm), if_neg (fun hc => h hc.symm)]
    · simp only [updateEntry, if_neg hk, lookupEntry]
      by_cases hm : k = m
      · rw [if_pos hm, if_pos hm]
      · rw [if_neg hm, if_neg hm]; exact ih

lemma lookupEntry_erase_ne (s : Ledger) {m n : String} (h : m ≠ n) :
    lookupEntry (eraseKey n s) m = lookupEntry s m := by
  induction s with
  | nil => simp [lookupEntry, eraseKey]
  | cons hd rest ih =>
    obtain ⟨k, e'⟩ := hd
    simp only [eraseKey]
    split
    · rename_i heq
      subst heq
      simp only [lookupEntry]
      rw [if_neg (fun hc : k = m => h (hc.symm.trans rfl))]
    · simp only [lookupEntry]
      by_cases hm : k = m
      · rw [if_pos hm, if_pos hm]
      · rw [if_neg hm, if_neg hm]; exact ih

lemma lookupEntry_eq_none_of_not_mem_keys {s : Ledger} {n : String}
    (h : n ∉ s.map Prod.fst) : lookupEntry s n = none := by
  induction s with
  | nil => rfl
  | cons hd rest ih =>
    obtain ⟨k, e'⟩ := hd
    simp only [List.map_cons, List.mem_cons] at h
    push_neg at h
    simp only [lookupEntry, if_neg (fun hc : k = n => h.1 hc.symm)]
    exact ih h.2

lemma keys_update (s : Ledger) (n : String) (f : ScoreEntry → ScoreEntry) :
    (updateEntry n f s).map Prod.fst = s.map Prod.fst := by
  induction s with
  | nil => rfl
  | cons hd rest ih =>
    obtain ⟨k, e'⟩ := hd
    by_cases hk : k = n
    · simp [updateEntry, if_pos hk]
    · simp [updateEntry, if_neg hk, ih]

lemma lookupEntry_erase_self {s : Ledger} (n : String)
    (hnd : (s.map Prod.fst).Nodup) : lookupEntry (eraseKey n s) n = none := by
  induction s with
  | nil => rfl
  | cons hd rest ih =>
    obtain ⟨k, e'⟩ := hd
    simp only [List.map_cons, List.nodup_cons] at hnd
    by_cases hk : k = n
    · subst hk
      simp only [eraseKey, if_pos rfl]
      exact lookupEntry_eq_none_of_not_mem_keys hnd.1
    · simp only [eraseKey, if_neg hk, lookupEntry, if_neg hk]
      exact ih hnd.2

lemma mem_updateEntry {s : Ledger} {n : String} {f : ScoreEntry → ScoreEntry}
    {p : String × ScoreEntry} (h : p ∈ updateEntry n f s) :
    p ∈ s ∨ ∃ e, (n, e) ∈ s ∧ p = (n, f e) := by
  induction s with
  | nil => simp [updateEntry] at h
  | cons hd rest ih =>
    obtain ⟨k, e'⟩ := hd
    simp only [updateEntry] at h
    split at h
    · rename_i heq
      subst heq
      rcases List.mem_cons.mp h with h' | h'
      · exact Or.inr ⟨e', List.mem_cons_self _ _, h'⟩
      · exact Or.inl (List.mem_cons_of_mem _ h')
    · rcases List.mem_cons.mp h with h' | h'
      · exact Or.inl (h' ▸ List.mem_cons_self _ _)
      · rcases ih h' with h2 | ⟨e, he, hp⟩
        · exact Or.inl (List.mem_cons_of_mem _ h2)
        · exact Or.inr ⟨e, List.mem_cons_of_mem _ he, hp⟩

lemma mem_of_mem_eraseKey {s : Ledger} {n : String} {p : String × ScoreEntry}
    (h : p ∈ eraseKey n s) : p ∈ s := by
  induction s with
  | nil => simp [eraseKey] at h
  | cons hd rest ih =>
    obtain ⟨k, e'⟩ := hd
    simp only [eraseKey] at h
    split at h
    · exact List.mem_cons_of_mem _ h
    · rcases List.mem_cons.mp h with h' | h'
      · exact h' ▸ List.mem_cons_self _ _
      · exact List.mem_cons_of_mem _ (ih h')

end Score

/-- The per-entry invariant: `total_points` equals the sum of the
`points` fields of the entry's `games`. -/
def entryInv (e : ScoreEntry) : Prop :=
  e.total_points = (e.games.map GameRecord.points).sum

/-- The ledger invariant: every entry satisfies `entryInv`. -/
def ledgerInv (s : Ledger) : Prop :=
  ∀ p ∈ s, entryInv p.2

lemma ledgerInv_updateEntry {s : Ledger} {n : String} {f : ScoreEntry → ScoreEntry}
    (h : ledgerInv s) (hf : ∀ e, entryInv e → entryInv (f e)) :
    ledgerInv (Score.updateEntry n f s) := by
  intro p hp
  rcases Score.mem_updateEntry hp with hp' | ⟨e, he, rfl⟩
  · exact h p hp'
  · exact hf e (h (n, e) he)

lemma ledgerInv_eraseKey {s : Ledger} {n : String} (h : ledgerInv s) :
    ledgerInv (Score.eraseKey n s) :=
  fun p hp => h p (Score.mem_of_mem_eraseKey hp)

lemma ledgerInv_append {s t : Ledger} (hs : ledgerInv s) (ht : ledgerInv t) :
    ledgerInv (s ++ t) := by
  intro p hp
  rcases List.mem_append.mp hp with h' | h'
  · exact hs p h'
  · exact ht p h'

lemma entryInv_getD {s : Ledger} {n : String} (h : ledgerInv s)
    (hs : ¬(Score.lookupEntry s n).isNone) :
    entryInv ((Score.lookupEntry s n).getD ⟨[], 0⟩) := by
  cases hlk : Score.lookupEntry s n with
  | none => rw [hlk] at hs; simp at hs
  | some e => simpa using h (n, e) (Score.lookupEntry_mem hlk)

/-- C4: every ledger entry's `total_points` equals the sum of the
`points` across its `games`, and this invariant is preserved by
`record_game`, by `rename_player` (both the pure-rename and the merge
case), and by `clear_scores`. -/
theorem ledger_total_points_invariant (s : Ledger) (h : ledgerInv s) :
    (∀ (player_name today : String) (points : ℤ),
      ledgerInv (Score.record_game s player_name today points)) ∧
    (∀ old_name new_name : String,
      ledgerInv (Score.rename_player s old_name new_name).scores) ∧
    ledgerInv Score.clear_scores := by
  refine ⟨?_, ?_, by intro p hp; simp [Score.clear_scores] at hp⟩
  · intro player_name today points
    unfold Score.record_game
    apply ledgerInv_updateEntry
    · split
      · exact ledgerInv_append h (by
          intro p hp
          simp only [List.mem_singleton] at hp
          subst hp
          rfl)
      · exact h
    · intro e he
      simp only [entryInv, List.map_append, List.sum_append] at he ⊢
      simp [he]
  · intro old_name new_name
    by_cases h1 : (Score.lookupEntry s old_name).isNone
    · simp only [Score.rename_player, if_pos h1]
      exact h
    · by_cases h2 : old_name = new_name
      · simp only [Score.rename_player, if_neg h1, if_pos h2]
        exact h
      · simp only [Score.rename_player, if_neg h1, if_neg h2]
        have hE := entryInv_getD h h1
        have hfin : ∀ s1 : Ledger, ledgerInv s1 →
            ledgerInv (if (Score.lookupEntry s1 old_name).isSome then
              Score.eraseKey old_name s1 else s1) := by
          intro s1 hs1
          split
          · exact ledgerInv_eraseKey hs1
          · exact hs1
        apply hfin
        split
        · apply ledgerInv_updateEntry h
          intro e he
          simp only [entryInv, List.map_append, List.sum_append] at he hE ⊢
          simp [he, hE]
        · refine ledgerInv_append (ledgerInv_eraseKey h) ?_
          intro p hp
          simp only [List.mem_singleton] at hp
          subst hp
          exact hE

theorem ledger_total_points_invariant_witness :
    ledgerInv (Score.record_game [("Lulu", ⟨[⟨"2024-01-01", 10⟩], 10⟩)] "Lulu" "2024-01-02" 5) := by
  have h := ledger_total_points_invariant [("Lulu", ⟨[⟨"2024-01-01", 10⟩], 10⟩)]
    (by intro p hp; simp only [List.mem_singleton] at hp; subst hp; rfl)
  exact h.1 "Lulu" "2024-01-02" 5

/-- C5: when both names exist in the ledger and differ, `rename_player`
succeeds and produces a ledger where `new_name`'s entry holds its
previous games followed by `old_name`'s games (in order), its
`total_points` is the sum of both previous totals, and the `old_name`
entry is gone. -/
theorem rename_player_merges (s : Ledger) (old_name new_name : String)
    (eo en : ScoreEntry) (hnd : (s.map Prod.fst).Nodup)
    (ho : Score.lookupEntry s old_name = some eo)
    (hn : Score.lookupEntry s new_name = some en)
    (hne : old_name ≠ new_name) :
    Score.lookupEntry (Score.rename_player s old_name new_name).scores new_name =
      some ⟨en.games ++ eo.games, en.total_points + eo.total_points⟩ ∧
    Score.lookupEntry (Score.rename_player s old_name new_name).scores old_name = none ∧
    (Score.rename_player s old_name new_name).ok = true := by
  have h1 : ¬(Score.lookupEntry s old_name).isNone = true := by rw [ho]; simp
  have h3 : (Score.lookupEntry s new_name).isSome = true := by rw [hn]; simp
  simp only [Score.rename_player, if_neg h1, if_neg hne, if_pos h3]
  rw [ho]
  simp only [Option.getD_some]
  have hup : Score.lookupEntry
      (Score.updateEntry new_name
        (fun e => ⟨e.games ++ eo.games, e.total_points + eo.total_points⟩) s) old_name =
      some eo :=
    (Score.lookupEntry_update_ne s
      (fun e => ⟨e.games ++ eo.games, e.total_points + eo.total_points⟩) hne).trans ho
  rw [if_pos (by rw [hup]; rfl)]
  refine ⟨?_, ?_, trivial⟩
  · rw [Score.lookupEntry_erase_ne _ (Ne.symm hne),
      Score.lookupEntry_update_self s new_name
        (fun e => ⟨e.games ++ eo.games, e.total_points + eo.total_points⟩), hn]
    rfl
  · exact Score.lookupEntry_erase_self old_name (by rw [Score.keys_update]; exact hnd)

theorem rename_player_merges_witness :
    Score.lookupEntry
      (Score.rename_player
        [("Lulu", ⟨[⟨"2024-01-01", 10⟩], 10⟩), ("Anastasia", ⟨[⟨"2024-01-02", 5⟩], 5⟩)]
        "Lulu" "Anastasia").scores "Anastasia" =
      some ⟨[⟨"2024-01-02", 5⟩] ++ [⟨"2024-01-01", 10⟩], 5 + 10⟩ ∧
    Score.lookupEntry
      (Score.rename_player
        [("Lulu", ⟨[⟨"2024-01-01", 10⟩], 10⟩), ("Anastasia", ⟨[⟨"2024-01-02", 5⟩], 5⟩)]
        "Lulu" "Anastasia").scores "Lulu" = none := by
  have h := rename_player_merges
    [("Lulu", ⟨[⟨"2024-01-01", 10⟩], 10⟩), ("Anastasia", ⟨[⟨"2024-01-02", 5⟩], 5⟩)]
    "Lulu" "Anastasia" ⟨[⟨"2024-01-01", 10⟩], 10⟩ ⟨[⟨"2024-01-02", 5⟩], 5⟩
    (by decide) (by decide) (by decide) (by decide)
  exact ⟨h.1, h.2.1⟩

/-- C6: `rename_player` with an absent `old_name` returns failure,
leaves the mapping exactly unchanged と does not reach the persistence
write; with `old_name == new_name` and the entry present it returns
success, again without changing the mapping or persisting. -/
theorem rename_player_absent_or_identity (s : Ledger) (old_name new_name : String) :
    (Score.lookupEntry s old_name = none →
      (Score.rename_player s old_name new_name).ok = false ∧
      (Score.rename_player s old_name new_name).saved = false ∧
      (Score.rename_player s old_name new_name).scores = s) ∧
    (Score.lookupEntry s old_name ≠ none → old_name = new_name →
      (Score.rename_player s old_name new_name).ok = true ∧
      (Score.rename_player s old_name new_name).saved = false ∧
      (Score.rename_player s old_name new_name).scores = s) := by
  constructor
  · intro h
    have h1 : (Score.lookupEntry s old_name).isNone = true := by rw [h]; rfl
    refine ⟨?_, ?_, ?_⟩ <;> simp only [Score.rename_player, if_pos h1]
  · intro h heq
    have h1 : ¬(Score.lookupEntry s old_name).isNone = true := by
      cases hlk : Score.lookupEntry s old_name with
      | none => exact absurd hlk h
      | some e => simp
    refine ⟨?_, ?_, ?_⟩ <;> simp only [Score.rename_player, if_neg h1, if_pos heq]

theorem rename_player_absent_or_identity_witness :
    (Score.rename_player [("Lulu", ⟨[], 0⟩)] "Bo" "Anastasia").ok = false ∧
    (Score.rename_player [("Lulu", ⟨[], 0⟩)] "Bo" "Anastasia").scores = [("Lulu", ⟨[], 0⟩)] ∧
    (Score.rename_player [("Lulu", ⟨[], 0⟩)] "Lulu" "Lulu").ok = true ∧
    (Score.rename_player [("Lulu", ⟨[], 0⟩)] "Lulu" "Lulu").scores = [("Lulu", ⟨[], 0⟩)] := by
  have ha := (rename_player_absent_or_identity [("Lulu", ⟨[], 0⟩)] "Bo" "Anastasia").1 (by decide)
  have hb := (rename_player_absent_or_identity [("Lulu", ⟨[], 0⟩)] "Lulu" "Lulu").2
    (by decide) rfl
  exact ⟨ha.1, ha.2.2, hb.1, hb.2.2⟩

/-- C10: querying the game history of a name with no ledger entry
returns the empty list (never fails); `get_player_history` is a pure
function of the ledger, so the ledger itself is untouched. -/
theorem get_player_history_absent (s : Ledger) (name : String)
    (h : Score.lookupEntry s name = none) :
    Score.get_player_history s name = [] := by
  unfold Score.get_player_history
  rw [h]

theorem get_player_history_absent_witness :
    Score.get_player_history [("Lulu", ⟨[⟨"2024-01-01", 10⟩], 10⟩)] "Bo" = [] :=
  get_player_history_absent [("Lulu", ⟨[⟨"2024-01-01", 10⟩], 10⟩)] "Bo" (by decide)

/-! ## Match state machine (src/game.py, class PigGame)

`PigGame.play` is an interactive loop; its observable state at each
decision point is embedded as `GameState`, and one decision (the
command of a human contestant, or the AI's choice, together with the
die outcome for a roll) becomes one `step`.  A turn-ending transition
folds in the `turn_total = 0` reset performed at the top of the outer
loop, so `turnTotal` and `currentIndex` in a post-step state are those
observable at the next decision point.  `records` logs the
`score_manager.record_game` calls.  `help`, `name` and `ai` commands do
not touch the match state and are omitted. -/

inductive GStatus where
  | playing
  | won
  | quit
deriving DecidableEq

structure GameState where
  name0 : String
  name1 : String
  score0 : ℤ
  score1 : ℤ
  currentIndex : ℕ
  turnTotal : ℤ
  winningScore : ℤ
  status : GStatus
  records : List (String × ℤ)
deriving DecidableEq

/-- One decision of the inner loop: a roll carries the die outcome
(`none` models the defensive empty-`values` fallback). -/
inductive Decision where
  | roll (face : Option ℤ)
  | hold
  | cheat
  | restart
  | quit
deriving DecidableEq

def activeName (s : GameState) : String :=
  if s.currentIndex = 0 then s.name0 else s.name1

def activeScore (s : GameState) : ℤ :=
  if s.currentIndex = 0 then s.score0 else s.score1

def addActive (s : GameState) (points : ℤ) : GameState :=
  if s.currentIndex = 0 then { s with score0 := s.score0 + points }
  else { s with score1 := s.score1 + points }

/-- One decision-point transition of `PigGame.play`. -/
def step (s : GameState) (d : Decision) : GameState :=
  if s.status = GStatus.playing then
    match d with
    | Decision.quit => { s with status := GStatus.quit }
    | Decision.restart =>
        { s with score0 := 0, score1 := 0,
                 turnTotal := 0, currentIndex := 1 - s.currentIndex }
    | Decision.roll none =>
        { s with turnTotal := 0, currentIndex := 1 - s.currentIndex }
    | Decision.roll (some f) =>
        if f = 1 then
          { s with turnTotal := 0, currentIndex := 1 - s.currentIndex }
        else
          if s.winningScore ≤ activeScore s + (s.turnTotal + f) then
            let s1 := addActive s (s.turnTotal + f)
            { s1 with turnTotal := s.turnTotal + f, status := GStatus.won,
                      records := s.records ++
                        [(activeName s, activeScore s + (s.turnTotal + f))] }
          else { s with turnTotal := s.turnTotal + f }
    | Decision.hold =>
        let s1 := addActive s s.turnTotal
        if s.winningScore ≤ activeScore s + s.turnTotal then
          { s1 with status := GStatus.won,
                    records := s.records ++
                      [(activeName s, activeScore s + s.turnTotal)] }
        else { s1 with turnTotal := 0, currentIndex := 1 - s.currentIndex }
    | Decision.cheat =>
        let s1 := addActive s 50
        if s.winningScore ≤ activeScore s + 50 then
          { s1 with status := GStatus.won,
                    records := s.records ++
                      [(activeName s, activeScore s + 50)] }
        else { s1 with turnTotal := 0, currentIndex := 1 - s.currentIndex }
  else s

/-- The state at the first decision point of a fresh `PigGame`:
contestant 0 active, zero scores and turn total, no records. -/
def initState (n0 n1 : String) (winning : ℤ) : GameState :=
  ⟨n0, n1, 0, 0, 0, 0, winning, GStatus.playing, []⟩

/-- A whole match: fold the decisions through `step`. -/
def run (s : GameState) (ds : List Decision) : GameState :=
  ds.foldl step s

@[simp] lemma addActive_currentIndex (s : GameState) (p : ℤ) :
    (addActive s p).currentIndex = s.currentIndex := by
  unfold addActive; split <;> rfl

@[simp] lemma addActive_turnTotal (s : GameState) (p : ℤ) :
    (addActive s p).turnTotal = s.turnTotal := by
  unfold addActive; split <;> rfl

@[simp] lemma addActive_status (s : GameState) (p : ℤ) :
    (addActive s p).status = s.status := by
  unfold addActive; split <;> rfl

@[simp] lemma addActive_records (s : GameState) (p : ℤ) :
    (addActive s p).records = s.records := by
  unfold addActive; split <;> rfl

@[simp] lemma activeScore_addActive (s : GameState) (p : ℤ) :
    activeScore (addActive s p) = activeScore s + p := by
  unfold activeScore addActive
  by_cases h : s.currentIndex = 0 <;> simp [h]

lemma step_frozen (s : GameState) (hs : s.status ≠ GStatus.playing) (d : Decision) :
    step s d = s := by
  unfold step; rw [if_neg hs]

/-- Records invariant used for the at-most-one-win argument: while the
match is still in play nothing has been recorded, and overall at most
one record is ever written. -/
def recInv (s : GameState) : Prop :=
  (s.status = GStatus.playing → s.records = []) ∧ s.records.length ≤ 1

lemma step_recInv (s : GameState) (d : Decision) (h : recInv s) : recInv (step s d) := by
  by_cases hs : s.status = GStatus.playing
  · have hrec : s.records = [] := h.1 hs
    cases d with
    | quit =>
      refine ⟨?_, ?_⟩ <;> simp [step, hs, hrec]
    | restart =>
      refine ⟨?_, ?_⟩ <;> simp [step, hs, hrec]
    | hold =>
      simp only [step, if_pos hs]
      split <;> refine ⟨?_, ?_⟩ <;> simp [hrec]
    | cheat =>
      simp only [step, if_pos hs]
      split <;> refine ⟨?_, ?_⟩ <;> simp [hrec]
    | roll of =>
      cases of with
      | none => refine ⟨?_, ?_⟩ <;> simp [step, hs, hrec]
      | some f =>
        simp only [step, if_pos hs]
        split_ifs <;> refine ⟨?_, ?_⟩ <;> simp [hrec]
  · rw [step_frozen s hs]
    exact h

lemma run_recInv (ds : List Decision) (s : GameState) (h : recInv s) :
    recInv (run s ds) := by
  induction ds generalizing s with
  | nil => exact h
  | cons d rest ih => exact ih (step s d) (step_recInv s d h)

/-- C2 as stated is false on the code: after a mid-match Restart the
loop still executes `current_index = 1 - current_index`, so from a
state where contestant 0 is active the match resumes with contestant 1
active, not contestant 0. -/
theorem restart_resumes_other_contestant_cex :
    ¬((step (initState "Lulu" "Bo" 100) Decision.restart).currentIndex = 0) := by
  decide

/-- C2 amended: Restart resets both contestants' banked scores to 0,
aborts the current turn (the next decision point has `turnTotal = 0`),
writes nothing to the ledger (`record_game` is not called), the match
keeps playing, and the active contestant flips to `1 − activeIndex`
(contestant 0 only when contestant 1 was active). -/
theorem restart_resets_scores_flips_turn (s : GameState)
    (hs : s.status = GStatus.playing) :
    (step s Decision.restart).score0 = 0 ∧
    (step s Decision.restart).score1 = 0 ∧
    (step s Decision.restart).turnTotal = 0 ∧
    (step s Decision.restart).records = s.records ∧
    (step s Decision.restart).status = GStatus.playing ∧
    (step s Decision.restart).currentIndex = 1 - s.currentIndex := by
  refine ⟨?_, ?_, ?_, ?_, ?_, ?_⟩ <;> simp [step, hs]

theorem restart_resets_scores_flips_turn_witness :
    (step (initState "Lulu" "Bo" 100) Decision.restart).score0 = 0 ∧
    (step (initState "Lulu" "Bo" 100) Decision.restart).records = [] :=
  ⟨(restart_resets_scores_flips_turn (initState "Lulu" "Bo" 100) rfl).1,
    (restart_resets_scores_flips_turn (initState "Lulu" "Bo" 100) rfl).2.2.2.1⟩

/-- C7: in any in-play state, rolling a 1 resets `turnTotal` to 0,
leaves both banked scores unchanged, keeps the match in play and flips
the active index; and every turn-ending transition that is not a win
or abandonment — bust, empty roll, non-winning hold, non-winning
cheat, restart — flips `activeIndex` to `1 − activeIndex`. -/
theorem bust_and_alternation (s : GameState) (hs : s.status = GStatus.playing) :
    (step s (Decision.roll (some 1))).turnTotal = 0 ∧
    (step s (Decision.roll (some 1))).score0 = s.score0 ∧
    (step s (Decision.roll (some 1))).score1 = s.score1 ∧
    (step s (Decision.roll (some 1))).status = GStatus.playing ∧
    (step s (Decision.roll (some 1))).currentIndex = 1 - s.currentIndex ∧
    (activeScore s + s.turnTotal < s.winningScore →
      (step s Decision.hold).currentIndex = 1 - s.currentIndex) ∧
    (activeScore s + 50 < s.winningScore →
      (step s Decision.cheat).currentIndex = 1 - s.currentIndex) ∧
    (step s Decision.restart).currentIndex = 1 - s.currentIndex ∧
    (step s (Decision.roll none)).currentIndex = 1 - s.currentIndex := by
  refine ⟨?_, ?_, ?_, ?_, ?_, ?_, ?_, ?_, ?_⟩
  · simp [step, hs]
  · simp [step, hs]
  · simp [step, hs]
  · simp [step, hs]
  · simp [step, hs]
  · intro hlt
    simp only [step, if_pos hs]
    rw [if_neg (by omega)]
  · intro hlt
    simp only [step, if_pos hs]
    rw [if_neg (by omega)]
  · simp [step, hs]
  · simp [step, hs]

theorem bust_and_alternation_witness :
    (step (initState "Lulu" "Bo" 100) (Decision.roll (some 1))).turnTotal = 0 ∧
    (step (initState "Lulu" "Bo" 100) (Decision.roll (some 1))).currentIndex = 1 := by
  have h := bust_and_alternation (initState "Lulu" "Bo" 100) rfl
  exact ⟨h.1, h.2.2.2.2.1⟩

/-- C8: a roll of a face above 1 that brings the active contestant's
banked score plus turn total to the winning score commits the whole
turn total to the banked score, moves the match to WON, appends
exactly one ledger record (for the active contestant, at the final
score), and terminates the match (every further decision is a no-op);
and any match run from a fresh state writes at most one record. -/
theorem roll_win_commits_once (s : GameState) (f : ℤ)
    (hs : s.status = GStatus.playing) (hf : 1 < f)
    (hw : s.winningScore ≤ activeScore s + s.turnTotal + f) :
    activeScore (step s (Decision.roll (some f))) = activeScore s + s.turnTotal + f ∧
    (step s (Decision.roll (some f))).status = GStatus.won ∧
    (step s (Decision.roll (some f))).records =
      s.records ++ [(activeName s, activeScore s + s.turnTotal + f)] ∧
    (∀ d : Decision, step (step s (Decision.roll (some f))) d =
      step s (Decision.roll (some f))) ∧
    (∀ (n0 n1 : String) (w : ℤ) (ds : List Decision),
      ((run (initState n0 n1 w) ds).records).length ≤ 1) := by
  have hred : step s (Decision.roll (some f)) =
      { addActive s (s.turnTotal + f) with
          turnTotal := s.turnTotal + f, status := GStatus.won,
          records := s.records ++
            [(activeName s, activeScore s + (s.turnTotal + f))] } := by
    simp only [step, if_pos hs]
    rw [if_neg (by omega : ¬f = 1), if_pos (by omega)]
  refine ⟨?_, ?_, ?_, ?_, ?_⟩
  · rw [hred]
    show activeScore (addActive s (s.turnTotal + f)) = activeScore s + s.turnTotal + f
    rw [activeScore_addActive]
    ring
  · rw [hred]
  · rw [hred]
    show s.records ++ [(activeName s, activeScore s + (s.turnTotal + f))] =
      s.records ++ [(activeName s, activeScore s + s.turnTotal + f)]
    rw [add_assoc]
  · intro d
    apply step_frozen
    rw [hred]
    simp
  · intro n0 n1 w ds
    exact (run_recInv ds (initState n0 n1 w) ⟨fun _ => rfl, by simp [initState]⟩).2

theorem roll_win_commits_once_witness :
    (step (initState "Lulu" "Bo" 7) (Decision.roll (some 7))).status = GStatus.won ∧
    (step (initState "Lulu" "Bo" 7) (Decision.roll (some 7))).records =
      [("Lulu", 7)] := by
  have h := roll_win_commits_once (initState "Lulu" "Bo" 7) 7 rfl (by norm_num)
    (by simp [initState, activeScore])
  refine ⟨h.2.1, ?_⟩
  have h3 := h.2.2.1
  simpa [initState, activeScore, activeName] using h3
